import Mathlib

/-!
Verification of the loop-point discovery and track-extension pipeline of the
ost-extender-musicbee repository.

The repository contains four near-duplicate Python scripts:
  * `src/plugin/looper.py`      (`find_loop_points` + CLI main)
  * `src/python/looper.py`      (`find_loop_points` with beat-sync collapse check + CLI main)
  * `src/analysis/looper.py`    (`find_loop_points_from_data`)
  * `src/py script/python_script.py` (`find_loop_points` + `extend_track`)

The definitions below are a shallow embedding of the algorithmic content of
those scripts.  Floating-point sample values and durations are modelled as
rationals; matrices are functions `ℕ → ℕ → ℚ` together with an explicit size.
External librosa collaborators (chromagram, affinity matrix, beat tracking,
audio IO) are modelled as opaque inputs to the embedded functions, exactly at
the boundary where the scripts consume their results.
-/

namespace OstExtender

/-! ### Similarity-matrix masking

Embedding of the masking block shared by all variants
(`src/plugin/looper.py` lines 14-18, `src/python/looper.py` lines 25-30,
`src/analysis/looper.py` lines 14-18, `src/py script/python_script.py`
lines 19-23):

    np.fill_diagonal(similarity_matrix, 0)
    for i in range(min_loop_frames):
        np.fill_diagonal(similarity_matrix[i:, :], 0)
        np.fill_diagonal(similarity_matrix[:, i:], 0)

`np.fill_diagonal(A[d:, :], 0)` zeroes the entries `(d+k, k)` (the d-th
subdiagonal) and `np.fill_diagonal(A[:, d:], 0)` zeroes `(k, d+k)` (the d-th
superdiagonal), in both cases for all indices inside the N×N matrix. -/

/-- `np.fill_diagonal(similarity_matrix, 0)` on an N×N matrix. -/
def fillDiagMain (N : ℕ) (M : ℕ → ℕ → ℚ) : ℕ → ℕ → ℚ :=
  fun i j => if i < N ∧ j < N ∧ i = j then 0 else M i j

/-- `np.fill_diagonal(similarity_matrix[d:, :], 0)`: zero the d-th subdiagonal. -/
def fillSub (N d : ℕ) (M : ℕ → ℕ → ℚ) : ℕ → ℕ → ℚ :=
  fun i j => if i < N ∧ j < N ∧ i = j + d then 0 else M i j

/-- `np.fill_diagonal(similarity_matrix[:, d:], 0)`: zero the d-th superdiagonal. -/
def fillSuper (N d : ℕ) (M : ℕ → ℕ → ℚ) : ℕ → ℕ → ℚ :=
  fun i j => if i < N ∧ j < N ∧ j = i + d then 0 else M i j

/-- One iteration of the masking loop: the body performs the subdiagonal fill
and then the superdiagonal fill for offset `d`. -/
def maskStep (N : ℕ) (A : ℕ → ℕ → ℚ) (d : ℕ) : ℕ → ℕ → ℚ :=
  fillSuper N d (fillSub N d A)

/-- The complete masking block: zero the main diagonal, then run the loop
`for i in range(min_loop_frames)`. -/
def maskMatrix (N m : ℕ) (M : ℕ → ℕ → ℚ) : ℕ → ℕ → ℚ :=
  (List.range m).foldl (maskStep N) (fillDiagMain N M)

lemma maskStep_of_zero (N : ℕ) (A : ℕ → ℕ → ℚ) (d i j : ℕ) (h : A i j = 0) :
    maskStep N A d i j = 0 := by
  unfold maskStep fillSuper fillSub
  split
  · rfl
  · split
    · rfl
    · exact h

lemma foldl_maskStep_of_zero (N : ℕ) (i j : ℕ) :
    ∀ (l : List ℕ) (A : ℕ → ℕ → ℚ), A i j = 0 →
      (l.foldl (maskStep N) A) i j = 0 := by
  intro l
  induction l with
  | nil => intro A h; exact h
  | cons d rest ih =>
      intro A h
      exact ih (maskStep N A d) (maskStep_of_zero N A d i j h)

lemma maskStep_touched (N : ℕ) (A : ℕ → ℕ → ℚ) (d i j : ℕ)
    (hi : i < N) (hj : j < N) (hd : i = j + d ∨ j = i + d) :
    maskStep N A d i j = 0 := by
  unfold maskStep fillSuper fillSub
  split
  · rfl
  · split
    · rfl
    · exfalso
      rename_i h1 h2
      rcases hd with hd | hd
      · exact h2 ⟨hi, hj, hd⟩
      · exact h1 ⟨hi, hj, hd⟩

lemma maskStep_untouched (N : ℕ) (A : ℕ → ℕ → ℚ) (d i j : ℕ)
    (hd : ¬(i = j + d) ∧ ¬(j = i + d)) :
    maskStep N A d i j = A i j := by
  unfold maskStep fillSuper fillSub
  split
  · exfalso; rename_i h; exact hd.2 h.2.2
  · split
    · exfalso; rename_i h; exact hd.1 h.2.2
    · rfl

lemma foldl_maskStep_touched (N : ℕ) (i j : ℕ) (hi : i < N) (hj : j < N) :
    ∀ (l : List ℕ) (A : ℕ → ℕ → ℚ),
      (∃ d ∈ l, i = j + d ∨ j = i + d) →
      (l.foldl (maskStep N) A) i j = 0 := by
  intro l
  induction l with
  | nil => intro A h; rcases h with ⟨d, hd, _⟩; cases hd
  | cons d rest ih =>
      intro A h
      rcases h with ⟨d0, hd0, hcase⟩
      rcases List.mem_cons.mp hd0 with h0 | h0
      · subst h0
        have hz : maskStep N A d0 i j = 0 := maskStep_touched N A d0 i j hi hj hcase
        exact foldl_maskStep_of_zero N i j rest (maskStep N A d0) hz
      · exact ih (maskStep N A d) ⟨d0, h0, hcase⟩

lemma foldl_maskStep_untouched (N : ℕ) (i j : ℕ) :
    ∀ (l : List ℕ) (A : ℕ → ℕ → ℚ),
      (∀ d ∈ l, ¬(i = j + d) ∧ ¬(j = i + d)) →
      (l.foldl (maskStep N) A) i j = A i j := by
  intro l
  induction l with
  | nil => intro A _; rfl
  | cons d rest ih =>
      intro A h
      have h1 := ih (maskStep N A d) (fun d0 hd0 => h d0 (List.mem_cons_of_mem d hd0))
      rw [List.foldl_cons, h1,
        maskStep_untouched N A d i j (h d (List.mem_cons_self d rest))]

/-- Inside the matrix, every entry at frame distance `< m` from the diagonal is
zeroed by the masking block. -/
lemma maskMatrix_close_zero (N m : ℕ) (M : ℕ → ℕ → ℚ) (i j : ℕ)
    (hi : i < N) (hj : j < N) (hdist : |(i : ℤ) - (j : ℤ)| < (m : ℤ)) :
    maskMatrix N m M i j = 0 := by
  have hdist2 : i - j < m ∧ j - i < m := by
    rcases abs_cases ((i : ℤ) - (j : ℤ)) with ⟨he, _⟩ | ⟨he, _⟩ <;>
      rw [he] at hdist <;> omega
  unfold maskMatrix
  rcases Nat.lt_or_ge i j with hlt | hge
  · refine foldl_maskStep_touched N i j hi hj (List.range m) (fillDiagMain N M)
      ⟨j - i, ?_, Or.inr (by omega)⟩
    exact List.mem_range.mpr (by omega)
  · rcases Nat.eq_or_lt_of_le hge with heq | hlt
    · have hm : 0 < m := by omega
      have hz : fillDiagMain N M i j = 0 := by
        unfold fillDiagMain
        rw [if_pos ⟨hi, hj, heq.symm⟩]
      exact foldl_maskStep_of_zero N i j (List.range m) (fillDiagMain N M) hz
    · refine foldl_maskStep_touched N i j hi hj (List.range m) (fillDiagMain N M)
        ⟨i - j, ?_, Or.inl (by omega)⟩
      exact List.mem_range.mpr (by omega)

/-- Off-diagonal entries at frame distance `≥ m` are left unchanged by the
masking block. -/
lemma maskMatrix_far_eq (N m : ℕ) (M : ℕ → ℕ → ℚ) (i j : ℕ)
    (hne : i ≠ j) (hdist : (m : ℤ) ≤ |(i : ℤ) - (j : ℤ)|) :
    maskMatrix N m M i j = M i j := by
  have hdist2 : m ≤ i - j ∨ m ≤ j - i := by
    rcases abs_cases ((i : ℤ) - (j : ℤ)) with ⟨he, _⟩ | ⟨he, _⟩ <;>
      rw [he] at hdist <;> omega
  unfold maskMatrix
  have huntouched : ∀ d ∈ List.range m, ¬(i = j + d) ∧ ¬(j = i + d) := by
    intro d hd
    have hdm : d < m := List.mem_range.mp hd
    constructor <;> intro hcase <;> omega
  rw [foldl_maskStep_untouched N i j (List.range m) (fillDiagMain N M) huntouched]
  unfold fillDiagMain
  rw [if_neg (by intro h; exact hne h.2.2)]

/-! ### Loop-point search

Embedding of the argmax step shared by all variants
(`src/plugin/looper.py` lines 20-22, `src/python/looper.py` lines 33-34,
`src/analysis/looper.py` lines 20-22):

    frame2_coords, frame1_coords = np.unravel_index(np.argmax(similarity_matrix), similarity_matrix.shape)
    frame1, frame2 = frame1_coords.item(), frame2_coords.item()
    loop_start_frame, loop_end_frame = min(frame1, frame2), max(frame1, frame2)

`np.argmax` scans the flattened (row-major) matrix and returns the FIRST
index attaining the maximum; `np.unravel_index` maps the flat index `p` of an
N×N matrix to `(row, col) = (p / N, p % N)`. -/

/-- First index attaining the maximum of `f` over `b :: l` in list order
(strict improvement keeps the earliest maximum, matching `np.argmax`). -/
def pickMax (f : ℕ → ℚ) (b : ℕ) (l : List ℕ) : ℕ :=
  l.foldl (fun best p => if f best < f p then p else best) b

/-- `np.argmax` over a flattened array of length `len`. -/
def argmaxFlat (f : ℕ → ℚ) (len : ℕ) : ℕ :=
  pickMax f 0 (List.range len)

/-- The searcher of `find_loop_points`: argmax over the flattened N×N masked
matrix, unravelled to `(row, col) = (frame2, frame1)`, then ordered into
`(loop_start_frame, loop_end_frame) = (min, max)`. -/
def findLoopCandidate (N : ℕ) (M : ℕ → ℕ → ℚ) : ℕ × ℕ :=
  let p := argmaxFlat (fun q => M (q / N) (q % N)) (N * N)
  let frame1 := p % N
  let frame2 := p / N
  (min frame1 frame2, max frame1 frame2)

lemma pickMax_mem (f : ℕ → ℚ) :
    ∀ (l : List ℕ) (b : ℕ), pickMax f b l = b ∨ pickMax f b l ∈ l := by
  intro l
  induction l with
  | nil => intro b; exact Or.inl rfl
  | cons a rest ih =>
      intro b
      unfold pickMax at *
      rw [List.foldl_cons]
      rcases ih (if f b < f a then a else b) with h | h
      · rw [h]
        split
        · exact Or.inr (List.mem_cons_self a rest)
        · exact Or.inl rfl
      · exact Or.inr (List.mem_cons_of_mem a h)

lemma pickMax_init_le (f : ℕ → ℚ) :
    ∀ (l : List ℕ) (b : ℕ), f b ≤ f (pickMax f b l) := by
  intro l
  induction l with
  | nil => intro b; exact le_refl _
  | cons a rest ih =>
      intro b
      unfold pickMax at *
      rw [List.foldl_cons]
      refine le_trans ?_ (ih (if f b < f a then a else b))
      split
      · rename_i h; exact le_of_lt h
      · exact le_refl _

lemma pickMax_le (f : ℕ → ℚ) :
    ∀ (l : List ℕ) (b : ℕ) (q : ℕ), q ∈ l → f q ≤ f (pickMax f b l) := by
  intro l
  induction l with
  | nil => intro b q hq; cases hq
  | cons a rest ih =>
      intro b q hq
      unfold pickMax at *
      rw [List.foldl_cons]
      rcases List.mem_cons.mp hq with h | h
      · subst h
        refine le_trans ?_ (pickMax_init_le f rest (if f b < f q then q else b))
        split
        · exact le_refl _
        · rename_i hnot; exact le_of_not_lt hnot
      · exact ih (if f b < f a then a else b) q h

lemma argmaxFlat_lt (f : ℕ → ℚ) (len : ℕ) (hlen : 0 < len) :
    argmaxFlat f len < len := by
  rcases pickMax_mem f (List.range len) 0 with h | h
  · rw [argmaxFlat, h]; exact hlen
  · exact List.mem_range.mp h

lemma argmaxFlat_ge (f : ℕ → ℚ) (len : ℕ) (q : ℕ) (hq : q < len) :
    f q ≤ f (argmaxFlat f len) :=
  pickMax_le f (List.range len) 0 q (List.mem_range.mpr hq)

/-! ### Beat synchronization

Embedding of the beat-snapping step
(`src/python/looper.py` lines 40-45, `src/plugin/looper.py` lines 25-27,
`src/analysis/looper.py` lines 24-26):

    loop_start_frame_synced = beat_frames[np.argmin(np.abs(beat_frames - loop_start_frame))]
    loop_end_frame_synced = beat_frames[np.argmin(np.abs(beat_frames - loop_end_frame))]

`np.argmin` returns the FIRST index attaining the minimum, so snapping keeps
the earliest beat on a tie.  The beat grid is modelled as a nonempty list
`b :: rest` of frame indices (numpy indexing into an empty beat array would
raise).  Frames are modelled as integers, matching numpy's integer
subtraction `beat_frames - frame`. -/

/-- `beat_frames[np.argmin(np.abs(beat_frames - f))]` over the grid `b :: rest`. -/
def nearestBeat (f b : ℤ) (rest : List ℤ) : ℤ :=
  rest.foldl (fun best g => if |g - f| < |best - f| then g else best) b

/-- The plugin/analysis variant of beat synchronization: both endpoints are
snapped and the pair is returned with NO collapse check
(`src/plugin/looper.py` lines 25-32, `src/analysis/looper.py` lines 24-31). -/
def pluginFindLoopSynced (b : ℤ) (rest : List ℤ) (cand : ℤ × ℤ) : ℤ × ℤ :=
  (nearestBeat cand.1 b rest, nearestBeat cand.2 b rest)

/-- The python variant of beat synchronization with the collapse check
(`src/python/looper.py` lines 40-45):

    if loop_start_frame_synced == loop_end_frame_synced:
        raise ValueError("Loop points are too close to sync to the beat.") -/
def pythonSyncChecked (b : ℤ) (rest : List ℤ) (cand : ℤ × ℤ) :
    Except String (ℤ × ℤ) :=
  let s := nearestBeat cand.1 b rest
  let e := nearestBeat cand.2 b rest
  if s = e then Except.error "Loop points are too close to sync to the beat."
  else Except.ok (s, e)

lemma nearestBeat_mem (f : ℤ) :
    ∀ (rest : List ℤ) (b : ℤ), nearestBeat f b rest = b ∨ nearestBeat f b rest ∈ rest := by
  intro rest
  induction rest with
  | nil => intro b; exact Or.inl rfl
  | cons a tail ih =>
      intro b
      unfold nearestBeat at *
      rw [List.foldl_cons]
      rcases ih (if |a - f| < |b - f| then a else b) with h | h
      · rw [h]
        split
        · exact Or.inr (List.mem_cons_self a tail)
        · exact Or.inl rfl
      · exact Or.inr (List.mem_cons_of_mem a h)

/-- First-occurrence argmin over a strictly increasing grid: the snapped beat
is strictly closer to `f` than every other grid member, or equally close and
not larger (the tie goes to the earlier, hence smaller, beat). -/
lemma nearestBeat_spec (f : ℤ) :
    ∀ (rest : List ℤ) (b : ℤ), (b :: rest).Pairwise (· < ·) →
      ∀ g ∈ b :: rest,
        |nearestBeat f b rest - f| < |g - f| ∨
          (|nearestBeat f b rest - f| = |g - f| ∧ nearestBeat f b rest ≤ g) := by
  intro rest
  induction rest with
  | nil =>
      intro b _ g hg
      rcases List.mem_singleton.mp hg with rfl
      exact Or.inr ⟨rfl, le_refl _⟩
  | cons a tail ih =>
      intro b hsorted g hg
      have hba : b < a := (List.pairwise_cons.mp hsorted).1 a (List.mem_cons_self a tail)
      have htail : (a :: tail).Pairwise (· < ·) := (List.pairwise_cons.mp hsorted).2
      have hbtail : ∀ x ∈ tail, b < x := fun x hx =>
        (List.pairwise_cons.mp hsorted).1 x (List.mem_cons_of_mem a hx)
      have hstep : nearestBeat f b (a :: tail) =
          nearestBeat f (if |a - f| < |b - f| then a else b) tail := by
        unfold nearestBeat
        rw [List.foldl_cons]
      have hsorted' : ((if |a - f| < |b - f| then a else b) :: tail).Pairwise (· < ·) := by
        split
        · exact htail
        · exact List.pairwise_cons.mpr ⟨hbtail, (List.pairwise_cons.mp htail).2⟩
      rcases List.mem_cons.mp hg with hgb | hg2
      · rw [hgb]
        by_cases hab : |a - f| < |b - f|
        · have h1 := ih (if |a - f| < |b - f| then a else b) hsorted'
            (if |a - f| < |b - f| then a else b) (List.mem_cons_self _ _)
          rw [if_pos hab] at h1
          rw [hstep, if_pos hab]
          left
          rcases h1 with h1 | h1
          · exact lt_trans h1 hab
          · rw [h1.1]; exact hab
        · have h1 := ih (if |a - f| < |b - f| then a else b) hsorted'
            (if |a - f| < |b - f| then a else b) (List.mem_cons_self _ _)
          rw [if_neg hab] at h1
          rw [hstep, if_neg hab]
          exact h1
      rcases List.mem_cons.mp hg2 with hga | hgtail
      · rw [hga]
        by_cases hab : |a - f| < |b - f|
        · have h1 := ih (if |a - f| < |b - f| then a else b) hsorted'
            (if |a - f| < |b - f| then a else b) (List.mem_cons_self _ _)
          rw [if_pos hab] at h1
          rw [hstep, if_pos hab]
          exact h1
        · have hle : |b - f| ≤ |a - f| := le_of_not_lt hab
          have h1 := ih (if |a - f| < |b - f| then a else b) hsorted'
            (if |a - f| < |b - f| then a else b) (List.mem_cons_self _ _)
          rw [if_neg hab] at h1
          rw [hstep, if_neg hab]
          rcases h1 with h1 | h1
          · left; exact lt_of_lt_of_le h1 hle
          · rcases lt_or_eq_of_le hle with hlt | heq
            · left; rw [h1.1]; exact hlt
            · right
              exact ⟨h1.1.trans heq, le_trans h1.2 (le_of_lt hba)⟩
      · have h1 := ih (if |a - f| < |b - f| then a else b) hsorted' g
          (List.mem_cons_of_mem _ hgtail)
        rw [hstep]
        exact h1

lemma abs_lt_abs_midpoint (p q x : ℤ) (hpq : p < q) (h : |q - x| < |p - x|) :
    p + q < 2 * x := by
  rcases abs_cases (q - x) with ⟨h1, s1⟩ | ⟨h1, s1⟩ <;>
    rcases abs_cases (p - x) with ⟨h2, s2⟩ | ⟨h2, s2⟩ <;>
      rw [h1, h2] at h <;> omega

lemma abs_le_abs_midpoint (p q x : ℤ) (hpq : p < q) (h : |p - x| ≤ |q - x|) :
    2 * x ≤ p + q := by
  rcases abs_cases (p - x) with ⟨h1, s1⟩ | ⟨h1, s1⟩ <;>
    rcases abs_cases (q - x) with ⟨h2, s2⟩ | ⟨h2, s2⟩ <;>
      rw [h1, h2] at h <;> omega

/-- Nearest-beat snapping with first-occurrence tie-breaking is monotone over
a strictly increasing grid. -/
lemma nearestBeat_mono (b : ℤ) (rest : List ℤ) (a c : ℤ)
    (hsorted : (b :: rest).Pairwise (· < ·)) (hac : a ≤ c) :
    nearestBeat a b rest ≤ nearestBeat c b rest := by
  by_contra hcontra
  push_neg at hcontra
  set ra := nearestBeat a b rest with hra
  set rc := nearestBeat c b rest with hrc
  have hrc_mem : rc ∈ b :: rest := by
    rcases nearestBeat_mem c rest b with h | h
    · rw [hrc, h]; exact List.mem_cons_self _ _
    · exact List.mem_cons_of_mem _ h
  have hra_mem : ra ∈ b :: rest := by
    rcases nearestBeat_mem a rest b with h | h
    · rw [hra, h]; exact List.mem_cons_self _ _
    · exact List.mem_cons_of_mem _ h
  have h1 := nearestBeat_spec a rest b hsorted rc hrc_mem
  have h2 := nearestBeat_spec c rest b hsorted ra hra_mem
  have hstrict : |ra - a| < |rc - a| := by
    rcases h1 with h1 | h1
    · exact h1
    · exfalso; exact absurd h1.2 (not_le.mpr hcontra)
  have hweak : |rc - c| ≤ |ra - c| := by
    rcases h2 with h2 | h2
    · exact le_of_lt h2
    · exact le_of_eq h2.1
  have ha2 : rc + ra < 2 * a := abs_lt_abs_midpoint rc ra a hcontra hstrict
  have hc2 : 2 * c ≤ rc + ra := abs_le_abs_midpoint rc ra c hcontra hweak
  omega

/-! ### Track extension

Embedding of `extend_track` (`src/py script/python_script.py` lines 42-62):

    intro_and_first_loop = y[:loop_end_samples]
    loop_segment = y[loop_start_samples:loop_end_samples]
    extended_audio = list(intro_and_first_loop)
    current_duration = librosa.get_duration(y=np.array(extended_audio), sr=sr)
    while current_duration < target_duration_seconds:
        extended_audio.extend(loop_segment)
        current_duration = librosa.get_duration(y=np.array(extended_audio), sr=sr)

`librosa.get_duration` of a mono sample array is `len / sr`.  The unbounded
`while` loop is modelled with explicit fuel: `none` means the available fuel
was exhausted while the condition still held, so divergence of the Python
loop corresponds to the function returning `none` for every fuel value. -/

/-- The slice `y[loop_start_samples:loop_end_samples]`. -/
def loopSegment (y : List ℚ) (ls le : ℕ) : List ℚ :=
  (y.drop ls).take (le - ls)

/-- The `while current_duration < target` loop of `extend_track`, with fuel. -/
def extendLoop (seg : List ℚ) (sr : ℕ) (target : ℚ) : ℕ → List ℚ → Option (List ℚ)
  | 0, acc => if ((acc.length : ℚ) / (sr : ℚ)) < target then none else some acc
  | fuel + 1, acc =>
      if ((acc.length : ℚ) / (sr : ℚ)) < target then
        extendLoop seg sr target fuel (acc ++ seg)
      else some acc

/-- `extend_track` after sample conversion: start from the slice
`y[:loop_end_samples]` and run the repetition loop. -/
def extendTrack (y : List ℚ) (sr ls le : ℕ) (target : ℚ) (fuel : ℕ) :
    Option (List ℚ) :=
  extendLoop (loopSegment y ls le) sr target fuel (y.take le)

lemma extendLoop_zero (seg : List ℚ) (sr : ℕ) (target : ℚ) (acc : List ℚ) :
    extendLoop seg sr target 0 acc =
      if ((acc.length : ℚ) / (sr : ℚ)) < target then none else some acc := rfl

lemma extendLoop_succ (seg : List ℚ) (sr : ℕ) (target : ℚ) (fuel : ℕ)
    (acc : List ℚ) :
    extendLoop seg sr target (fuel + 1) acc =
      if ((acc.length : ℚ) / (sr : ℚ)) < target then
        extendLoop seg sr target fuel (acc ++ seg)
      else some acc := rfl

lemma extendLoop_of_done (seg : List ℚ) (sr : ℕ) (target : ℚ) (acc : List ℚ)
    (h : ¬(((acc.length : ℚ) / (sr : ℚ)) < target)) :
    ∀ fuel, extendLoop seg sr target fuel acc = some acc := by
  intro fuel
  cases fuel with
  | zero => unfold extendLoop; rw [if_neg h]
  | succ n => unfold extendLoop; rw [if_neg h]

/-- Whatever the loop returns is the initial buffer followed by some number of
whole copies of the loop segment. -/
lemma extendLoop_shape (seg : List ℚ) (sr : ℕ) (target : ℚ) :
    ∀ (fuel : ℕ) (acc out : List ℚ),
      extendLoop seg sr target fuel acc = some out →
      ∃ k, out = acc ++ (List.replicate k seg).flatten := by
  intro fuel
  induction fuel with
  | zero =>
      intro acc out h
      unfold extendLoop at h
      split at h
      · cases h
      · refine ⟨0, ?_⟩
        rw [List.replicate_zero, List.flatten_nil, List.append_nil]
        exact (Option.some_injective _ h).symm
  | succ n ih =>
      intro acc out h
      unfold extendLoop at h
      split at h
      · rcases ih (acc ++ seg) out h with ⟨k, hk⟩
        refine ⟨k + 1, ?_⟩
        rw [hk, List.replicate_succ, List.flatten_cons, List.append_assoc]
      · refine ⟨0, ?_⟩
        rw [List.replicate_zero, List.flatten_nil, List.append_nil]
        exact (Option.some_injective _ h).symm

/-- When the loop returns, the accumulated duration has reached the target. -/
lemma extendLoop_reaches (seg : List ℚ) (sr : ℕ) (target : ℚ) :
    ∀ (fuel : ℕ) (acc out : List ℚ),
      extendLoop seg sr target fuel acc = some out →
      target ≤ ((out.length : ℚ) / (sr : ℚ)) := by
  intro fuel
  induction fuel with
  | zero =>
      intro acc out h
      unfold extendLoop at h
      split at h
      · cases h
      · rename_i hcond
        rw [← Option.some_injective _ h]
        exact le_of_not_lt hcond
  | succ n ih =>
      intro acc out h
      unfold extendLoop at h
      split at h
      · exact ih (acc ++ seg) out h
      · rename_i hcond
        rw [← Option.some_injective _ h]
        exact le_of_not_lt hcond

/-- If the loop had to run (the initial duration is below the target), the
returned duration overshoots the target by less than one segment duration. -/
lemma extendLoop_overshoot (seg : List ℚ) (sr : ℕ) (target : ℚ) :
    ∀ (fuel : ℕ) (acc out : List ℚ),
      ((acc.length : ℚ) / (sr : ℚ)) < target →
      extendLoop seg sr target fuel acc = some out →
      ((out.length : ℚ) / (sr : ℚ)) < target + ((seg.length : ℚ) / (sr : ℚ)) := by
  intro fuel
  induction fuel with
  | zero =>
      intro acc out hcond h
      unfold extendLoop at h
      rw [if_pos hcond] at h
      cases h
  | succ n ih =>
      intro acc out hcond h
      unfold extendLoop at h
      rw [if_pos hcond] at h
      by_cases hcond2 : (((acc ++ seg).length : ℚ) / (sr : ℚ)) < target
      · exact ih (acc ++ seg) out hcond2 h
      · rw [extendLoop_of_done seg sr target (acc ++ seg) hcond2 n] at h
        rw [← Option.some_injective _ h]
        have hlen : (((acc ++ seg).length : ℚ)) = (acc.length : ℚ) + (seg.length : ℚ) := by
          rw [List.length_append]
          push_cast
          ring
        rw [hlen, add_div]
        exact add_lt_add_right hcond _

/-- With a nonempty segment the loop terminates: any fuel making
`acc.length + fuel * seg.length` reach `target * sr` suffices. -/
lemma extendLoop_total (seg : List ℚ) (sr : ℕ) (target : ℚ) (hsr : 0 < sr) :
    ∀ (fuel : ℕ) (acc : List ℚ),
      target * (sr : ℚ) ≤ (acc.length : ℚ) + (fuel : ℚ) * (seg.length : ℚ) →
      ∃ out, extendLoop seg sr target fuel acc = some out := by
  have hsrq : (0 : ℚ) < (sr : ℚ) := by exact_mod_cast hsr
  intro fuel
  induction fuel with
  | zero =>
      intro acc h
      refine ⟨acc, ?_⟩
      unfold extendLoop
      rw [if_neg ?_]
      rw [not_lt, le_div_iff₀ hsrq]
      simpa using h
  | succ n ih =>
      intro acc h
      by_cases hcond : ((acc.length : ℚ) / (sr : ℚ)) < target
      · have h2 : target * (sr : ℚ) ≤ (((acc ++ seg).length : ℚ)) + (n : ℚ) * (seg.length : ℚ) := by
          rw [List.length_append]
          push_cast at h ⊢
          linarith
        rcases ih (acc ++ seg) h2 with ⟨out, hout⟩
        refine ⟨out, ?_⟩
        unfold extendLoop
        rw [if_pos hcond]
        exact hout
      · refine ⟨acc, ?_⟩
        unfold extendLoop
        rw [if_neg hcond]

/-- With an empty segment and a starting duration below the target, the loop
never terminates: it returns `none` for every fuel value. -/
lemma extendLoop_empty_diverges (sr : ℕ) (target : ℚ) (acc : List ℚ)
    (hcond : ((acc.length : ℚ) / (sr : ℚ)) < target) :
    ∀ fuel, extendLoop [] sr target fuel acc = none := by
  intro fuel
  induction fuel with
  | zero => unfold extendLoop; rw [if_pos hcond]
  | succ n ih =>
      unfold extendLoop
      rw [if_pos hcond, List.append_nil]
      exact ih

/-! ### CLI orchestration and validation

Embeddings of the `__main__` blocks and the host-facing output contract.
The outcome of the externally supplied analysis steps (librosa load, feature
extraction, beat tracking, and any exception raised along the way) is
modelled as an `Except String (ℚ × ℚ)` value: either an error message or a
`(loop_start, loop_end)` time pair. -/

/-- Observable outcome of one CLI run: the lines printed on stdout, the lines
printed on stderr, and the process exit code. -/
structure RunOutput where
  out : List String
  err : List String
  exitCode : ℕ
  deriving DecidableEq, Repr

/-- The success line `f"{loop_start}:{loop_end}"`. -/
def formatLoopLine (s e : ℚ) : String :=
  toString s ++ ":" ++ toString e

/-- `src/plugin/looper.py` `find_loop_points` result string (lines 32-34):
a `start:end` line on success, an `"Error: ..."` string when the internal
`try` block raised. -/
def pluginFindLoopStr (analysis : Except String (ℚ × ℚ)) : String :=
  match analysis with
  | Except.ok (s, e) => formatLoopLine s e
  | Except.error m => "Error: " ++ m

/-- `src/plugin/looper.py` `__main__` after a successful load (lines 55-56):
the result string — success or error alike — is printed on STDOUT by
`print(result)` and the script then ends with exit status 0. -/
def pluginMainRun (analysis : Except String (ℚ × ℚ)) : RunOutput :=
  ⟨[pluginFindLoopStr analysis], [], 0⟩

/-- `src/python/looper.py` `__main__` (lines 58-80): on success with
`loop_end > loop_start` print `start:end` on stdout and exit 0; otherwise the
raised exception is caught and printed on STDERR as `f"Error: {e}"` followed
by `sys.exit(1)`. -/
def pythonMainRun (analysis : Except String (ℚ × ℚ)) : RunOutput :=
  match analysis with
  | Except.ok (s, e) =>
      if s < e then ⟨[formatLoopLine s e], [], 0⟩
      else ⟨[], ["Error: Could not find a confident loop."], 1⟩
  | Except.error m => ⟨[], ["Error: " ++ m], 1⟩

/-- `src/python/looper.py` `__main__` validation (lines 61-66): reject tracks
shorter than 20 s, otherwise
`min_loop_duration = max(15.0, total_duration * 0.15)`. -/
def pythonMinLoopDuration (total : ℚ) : Except String ℚ :=
  if total < 20 then
    Except.error "Audio file is too short for meaningful loop analysis."
  else Except.ok (max 15 (total * (3 / 20)))

/-- `src/plugin/looper.py` `__main__` validation (lines 50-54): reject tracks
shorter than 20 s, otherwise `min_loop_duration = total_duration * 0.15`
(no 15-second floor). -/
def pluginMinLoopDuration (total : ℚ) : Except String ℚ :=
  if total < 20 then Except.error "Audio file too short for analysis"
  else Except.ok (total * (3 / 20))

/-- `src/analysis/looper.py` lines 7-9: `min_duration = duration * 0.15`,
floored at 10 seconds (and no 20-second rejection at all). -/
def analysisMinDuration (total : ℚ) : ℚ :=
  let d := total * (3 / 20)
  if d < 10 then 10 else d

/-- A concrete terminating run of the extender: buffer `[1, 2]` at 1 Hz,
loop `[1, 2)`, target 4 s, giving the initial buffer plus two whole copies
of the loop segment. -/
lemma extendTrack_run_example : extendTrack [1, 2] 1 1 2 4 5 = some [1, 2, 2, 2] := by
  show extendLoop [2] 1 4 (4 + 1) [1, 2] = some [1, 2, 2, 2]
  rw [extendLoop_succ, if_pos (by norm_num)]
  show extendLoop [2] 1 4 (3 + 1) [1, 2, 2] = some [1, 2, 2, 2]
  rw [extendLoop_succ, if_pos (by norm_num)]
  show extendLoop [2] 1 4 (2 + 1) [1, 2, 2, 2] = some [1, 2, 2, 2]
  rw [extendLoop_succ, if_neg (by norm_num)]

/-! ## Claim theorems -/

/-- C1: the claim says that a masked similarity matrix whose maximum entry is
0 makes the loop-point search report a "no loop found" failure.  The code has
no such check in any variant: `np.argmax` of an all-zero matrix returns flat
index 0, which unravels to the frame pair (0, 0), and that pair is returned.
This theorem evaluates the embedded searcher at the failing input (the
all-zero 2×2 masked matrix) and shows it returns the meaningless pair (0, 0)
instead of failing. -/
theorem C1_degenerate_argmax :
    findLoopCandidate 2 (fun _ _ => (0 : ℚ)) = (0, 0) := by decide

/-- C2 counterexample: with `min_loop_frames = 0` the claim as stated fails.
The entry (0, 0) has frame distance `0 ≥ min_loop_frames`, so the claim says
it is unchanged, but `np.fill_diagonal(similarity_matrix, 0)` zeroes it
unconditionally. -/
theorem C2_counterexample :
    (0 : ℤ) ≤ |((0 : ℕ) : ℤ) - ((0 : ℕ) : ℤ)| ∧
      maskMatrix 1 0 (fun _ _ => (1 : ℚ)) 0 0 ≠ (fun _ _ => (1 : ℚ)) 0 0 := by
  decide

/-- C2 (amended): for every unmasked affinity matrix and every
`min_loop_frames ≥ 1`, the masked matrix is zero at every in-bounds entry
with `|i - j| < min_loop_frames` and equals the unmasked matrix at every
entry with `|i - j| ≥ min_loop_frames` (for `min_loop_frames = 0` the main
diagonal is additionally zeroed, which is what the counterexample exhibits). -/
theorem C2_mask_matrix (N m : ℕ) (M : ℕ → ℕ → ℚ) (i j : ℕ)
    (hm : 1 ≤ m) (hi : i < N) (hj : j < N) :
    (|(i : ℤ) - (j : ℤ)| < (m : ℤ) → maskMatrix N m M i j = 0) ∧
    ((m : ℤ) ≤ |(i : ℤ) - (j : ℤ)| → maskMatrix N m M i j = M i j) := by
  constructor
  · intro h
    exact maskMatrix_close_zero N m M i j hi hj h
  · intro h
    have hne : i ≠ j := by
      intro heq
      rw [heq] at h
      simp only [sub_self, abs_zero] at h
      omega
    exact maskMatrix_far_eq N m M i j hne h

/-- C2 witness: a concrete 3×3 constant matrix with `min_loop_frames = 1`
at entry (0, 2). -/
theorem C2_witness :
    (|((0 : ℕ) : ℤ) - ((2 : ℕ) : ℤ)| < ((1 : ℕ) : ℤ) →
        maskMatrix 3 1 (fun _ _ => (5 : ℚ)) 0 2 = 0) ∧
    (((1 : ℕ) : ℤ) ≤ |((0 : ℕ) : ℤ) - ((2 : ℕ) : ℤ)| →
        maskMatrix 3 1 (fun _ _ => (5 : ℚ)) 0 2 = (fun _ _ => (5 : ℚ)) 0 2) :=
  C2_mask_matrix 3 1 (fun _ _ => (5 : ℚ)) 0 2 (by decide) (by decide) (by decide)

/-- C4 counterexample: on the all-zero masked matrix the searcher returns
(0, 0), so `start_frame < end_frame` fails. -/
theorem C4_counterexample :
    ¬ ((findLoopCandidate 2 (fun _ _ => (0 : ℚ))).1 <
        (findLoopCandidate 2 (fun _ _ => (0 : ℚ))).2) := by
  decide

/-- C4 (amended): for every N ≥ 1 the searcher returns
`start_frame ≤ end_frame` with both indices inside the matrix bounds, and the
inequality is strict whenever the masked matrix has a zero diagonal and a
strictly positive entry somewhere in bounds (i.e. whenever its maximum is
nonzero). -/
theorem C4_search_bounds (N : ℕ) (M : ℕ → ℕ → ℚ) (hN : 0 < N) :
    (findLoopCandidate N M).1 ≤ (findLoopCandidate N M).2 ∧
    (findLoopCandidate N M).1 < N ∧
    (findLoopCandidate N M).2 < N ∧
    ((∀ i, M i i = 0) → (∃ i j, i < N ∧ j < N ∧ 0 < M i j) →
      (findLoopCandidate N M).1 < (findLoopCandidate N M).2) := by
  have hNN : 0 < N * N := Nat.mul_pos hN hN
  have hp : argmaxFlat (fun q => M (q / N) (q % N)) (N * N) < N * N :=
    argmaxFlat_lt _ _ hNN
  set p := argmaxFlat (fun q => M (q / N) (q % N)) (N * N) with hpdef
  have hrow : p / N < N := Nat.div_lt_of_lt_mul (by omega)
  have hcol : p % N < N := Nat.mod_lt _ hN
  have hcand : findLoopCandidate N M = (min (p % N) (p / N), max (p % N) (p / N)) := by
    rfl
  rw [hcand]
  refine ⟨min_le_max, lt_of_le_of_lt (min_le_left _ _) hcol,
    max_lt hcol hrow, ?_⟩
  intro hdiag hpos
  rcases hpos with ⟨i, j, hi, hj, hMij⟩
  have hflat : j + i * N < N * N := by
    calc j + i * N < N + i * N := by omega
      _ = (i + 1) * N := by ring
      _ ≤ N * N := Nat.mul_le_mul_right N (by omega)
  have hdivmod : M ((j + i * N) / N) ((j + i * N) % N) = M i j := by
    have hdiv : (j + i * N) / N = i := by
      rw [Nat.add_mul_div_right _ _ hN, Nat.div_eq_of_lt hj]
      omega
    have hmod : (j + i * N) % N = j := by
      rw [Nat.add_mul_mod_self_right, Nat.mod_eq_of_lt hj]
    rw [hdiv, hmod]
  have hmax : M i j ≤ M (p / N) (p % N) := by
    have h0 : M ((j + i * N) / N) ((j + i * N) % N) ≤ M (p / N) (p % N) :=
      argmaxFlat_ge (fun q => M (q / N) (q % N)) (N * N) (j + i * N) hflat
    rw [hdivmod] at h0
    exact h0
  have hppos : 0 < M (p / N) (p % N) := lt_of_lt_of_le hMij hmax
  have hne : p % N ≠ p / N := by
    intro heq
    rw [← heq] at hppos
    rw [hdiag (p % N)] at hppos
    exact lt_irrefl 0 hppos
  exact min_lt_max.mpr hne

/-- C4 witness: a concrete 2×2 masked matrix with zero diagonal and a
positive off-diagonal entry. -/
theorem C4_witness :
    (findLoopCandidate 2 (fun i j => if i = j then (0 : ℚ) else 1)).1 <
      (findLoopCandidate 2 (fun i j => if i = j then (0 : ℚ) else 1)).2 :=
  (C4_search_bounds 2 (fun i j => if i = j then (0 : ℚ) else 1) (by decide)).2.2.2
    (fun i => by simp) ⟨0, 1, by decide, by decide, by decide⟩

/-- C5: the claim says every variant reports a "loop points collapsed during
beat sync" error when both endpoints snap to the same beat.  Only
`src/python/looper.py` performs this check; `src/plugin/looper.py` (and
`src/analysis/looper.py`) return the collapsed pair as a success.  At the
failing input — beat grid `[5]`, candidate `(0, 1)` — both endpoints snap to
beat 5: the plugin variant returns the zero-length pair `(5, 5)` while the
python variant raises the documented error. -/
theorem C5_beat_sync_collapse :
    pluginFindLoopSynced 5 [] (0, 1) = (5, 5) ∧
    pythonSyncChecked 5 [] (0, 1) =
      Except.error "Loop points are too close to sync to the beat." := by
  constructor
  · rfl
  · rfl

/-- C6 counterexample: at `total_duration = 20` the plugin variant computes
`0.15 * 20 = 3` and the analysis variant computes `max(10, 3) = 10`, neither
of which equals `max(15.0, 0.15 * 20) = 15`. -/
theorem C6_counterexample :
    pluginMinLoopDuration 20 = Except.ok 3 ∧
    analysisMinDuration 20 = 10 ∧
    (3 : ℚ) ≠ max 15 (20 * (3 / 20)) := by
  refine ⟨?_, ?_, ?_⟩
  · unfold pluginMinLoopDuration
    norm_num
  · unfold analysisMinDuration
    norm_num
  · norm_num

/-- C6 (amended): in `src/python/looper.py`, for every track of total
duration ≥ 20 seconds the default minimum loop duration equals
`max(15.0, 0.15 * total_duration)`; the plugin and py-script variants use
`0.15 * total_duration` with no 15-second floor, and the analysis variant
floors at 10 seconds instead. -/
theorem C6_python_min_loop_duration (total : ℚ) (h : 20 ≤ total) :
    pythonMinLoopDuration total = Except.ok (max 15 (total * (3 / 20))) := by
  unfold pythonMinLoopDuration
  rw [if_neg (not_lt.mpr h)]

/-- C6 witness: a 30-second track. -/
theorem C6_witness :
    pythonMinLoopDuration 30 = Except.ok (max 15 (30 * (3 / 20))) :=
  C6_python_min_loop_duration 30 (by norm_num)

/-- C7 counterexample: in `src/plugin/looper.py` an analysis failure inside
`find_loop_points` is returned as an `"Error: ..."` string which `__main__`
prints on STDOUT via `print(result)` and the process then exits with status
0 — the failure is reported on the success channel with a success status. -/
theorem C7_counterexample :
    (pluginMainRun (Except.error "boom")).out = ["Error: boom"] ∧
    (pluginMainRun (Except.error "boom")).err = [] ∧
    (pluginMainRun (Except.error "boom")).exitCode = 0 :=
  ⟨rfl, rfl, rfl⟩

/-- C7 (amended): in `src/python/looper.py` every failing run — a raised
exception, or a result without strictly increasing loop points — prints a
single `"Error: "`-prefixed message on stderr, prints nothing on stdout, and
exits with status 1; the plugin variant instead reports analysis failures on
stdout with exit status 0 (see the counterexample). -/
theorem C7_python_failure_channel :
    (∀ m, pythonMainRun (Except.error m) = ⟨[], ["Error: " ++ m], 1⟩) ∧
    (∀ s e : ℚ, e ≤ s →
      pythonMainRun (Except.ok (s, e)) =
        ⟨[], ["Error: Could not find a confident loop."], 1⟩) := by
  constructor
  · intro m
    rfl
  · intro s e h
    simp only [pythonMainRun]
    rw [if_neg (not_lt.mpr h)]

/-- C7 witness: a run whose loop points collapsed (`end ≤ start`). -/
theorem C7_witness :
    pythonMainRun (Except.ok ((2 : ℚ), (1 : ℚ))) =
      ⟨[], ["Error: Could not find a confident loop."], 1⟩ :=
  C7_python_failure_channel.2 2 1 (by norm_num)

/-- C3 counterexample: when the target duration is at most the duration of
the initial buffer `y[:loop_end_samples]`, the output is that buffer alone
and can overshoot the target by far more than one loop length.  Here the
4-sample buffer at 1 Hz with loop `[3, 4)` and target 1 s yields a 4-second
output: overshoot 3 s, loop length 1 s, refuting the claim's unconditional
"overshoots the target by less than one loop length". -/
theorem C3_counterexample :
    extendTrack [0, 0, 0, 0] 1 3 4 1 1 = some [0, 0, 0, 0] ∧
    ¬ (((([0, 0, 0, 0] : List ℚ).length : ℚ) / ((1 : ℕ) : ℚ)) <
        1 + ((((4 - 3 : ℕ)) : ℚ) / ((1 : ℕ) : ℚ))) := by
  constructor
  · show extendLoop [0] 1 1 (0 + 1) [0, 0, 0, 0] = some [0, 0, 0, 0]
    rw [extendLoop_succ, if_neg (by norm_num)]
  · norm_num

/-- C3 (amended): for every full-resolution buffer, loop points with
`loop_start_samples < loop_end_samples ≤ len(y)`, and target duration, any
terminating run of the extender returns the buffer `y[:loop_end_samples]`
followed by whole copies of `y[loop_start_samples:loop_end_samples]` (never
a partial repetition), with output duration ≥ the target; when the target
exceeds the initial buffer's duration the overshoot is less than one loop
length, and when the target is ≤ the initial buffer's duration exactly that
buffer is returned with zero repetitions appended. -/
theorem C3_extend_track (y : List ℚ) (sr ls le : ℕ) (target : ℚ) (fuel : ℕ)
    (out : List ℚ) (_hsr : 0 < sr) (hlt : ls < le) (hle : le ≤ y.length)
    (h : extendTrack y sr ls le target fuel = some out) :
    (∃ k, out = y.take le ++ (List.replicate k (loopSegment y ls le)).flatten) ∧
    target ≤ ((out.length : ℚ) / (sr : ℚ)) ∧
    (target ≤ ((le : ℕ) : ℚ) / (sr : ℚ) → out = y.take le) ∧
    (((le : ℕ) : ℚ) / (sr : ℚ) < target →
      ((out.length : ℚ) / (sr : ℚ)) < target + (((le - ls : ℕ) : ℚ) / (sr : ℚ))) := by
  have hplen : (y.take le).length = le := by
    rw [List.length_take]
    omega
  have hseglen : (loopSegment y ls le).length = le - ls := by
    rw [loopSegment, List.length_take, List.length_drop]
    omega
  unfold extendTrack at h
  refine ⟨extendLoop_shape _ _ _ fuel _ out h,
    extendLoop_reaches _ _ _ fuel _ out h, ?_, ?_⟩
  · intro ht
    have hdone : ¬(((((y.take le).length : ℕ) : ℚ) / (sr : ℚ)) < target) := by
      rw [hplen]
      exact not_lt.mpr ht
    rw [extendLoop_of_done _ _ _ _ hdone fuel] at h
    exact (Option.some_injective _ h).symm
  · intro ht
    have hcond : ((((y.take le).length : ℕ) : ℚ) / (sr : ℚ)) < target := by
      rw [hplen]
      exact ht
    have := extendLoop_overshoot (loopSegment y ls le) sr target fuel
      (y.take le) out hcond h
    rw [hseglen] at this
    exact this

/-- C3 witness: buffer `[1, 2]` at 1 Hz, loop `[1, 2)`, target 4 s: the run
returns `[1, 2, 2, 2]` — the initial buffer plus two whole copies. -/
theorem C3_witness :
    (∃ k, ([1, 2, 2, 2] : List ℚ) =
        ([1, 2] : List ℚ).take 2 ++ (List.replicate k (loopSegment [1, 2] 1 2)).flatten) ∧
    (4 : ℚ) ≤ ((([1, 2, 2, 2] : List ℚ).length : ℚ) / (((1 : ℕ)) : ℚ)) ∧
    ((4 : ℚ) ≤ (((2 : ℕ)) : ℚ) / (((1 : ℕ)) : ℚ) →
      ([1, 2, 2, 2] : List ℚ) = ([1, 2] : List ℚ).take 2) ∧
    ((((2 : ℕ)) : ℚ) / (((1 : ℕ)) : ℚ) < 4 →
      ((([1, 2, 2, 2] : List ℚ).length : ℚ) / (((1 : ℕ)) : ℚ)) <
        4 + ((((2 - 1 : ℕ)) : ℚ) / (((1 : ℕ)) : ℚ))) :=
  C3_extend_track [1, 2] 1 1 2 4 5 [1, 2, 2, 2]
    (by decide) (by decide) (by decide) extendTrack_run_example

/-- C8: the first `loop_end_samples` samples of any terminating output of the
extender equal the first `loop_end_samples` samples of the input buffer
(loop points index into the buffer, so `loop_end_samples ≤ len(y)`). -/
theorem C8_prefix_preserved (y : List ℚ) (sr ls le : ℕ) (target : ℚ)
    (fuel : ℕ) (out : List ℚ) (hle : le ≤ y.length)
    (h : extendTrack y sr ls le target fuel = some out) :
    out.take le = y.take le := by
  rcases extendLoop_shape _ _ _ fuel (y.take le) out h with ⟨k, hk⟩
  have hplen : (y.take le).length = le := by
    rw [List.length_take]
    omega
  rw [hk, List.take_left' hplen]

/-- C8 witness: the terminating run of the C3 witness input. -/
theorem C8_witness :
    ([1, 2, 2, 2] : List ℚ).take 2 = ([1, 2] : List ℚ).take 2 :=
  C8_prefix_preserved [1, 2] 1 1 2 4 5 [1, 2, 2, 2] (by decide) extendTrack_run_example

/-- C9: the extender's repetition loop terminates (returns `some` for large
enough fuel) whenever the loop segment is nonempty or the initial buffer
already reaches the target duration; and for the concrete input `y = [0]`,
`loop_start_samples = loop_end_samples = 1`, target 2 s — an empty loop
segment with the initial duration below the target — it returns `none` for
every fuel value, i.e. the Python `while` loop never terminates. -/
theorem C9_termination :
    (∀ (y : List ℚ) (sr ls le : ℕ) (target : ℚ), 0 < sr →
        (loopSegment y ls le ≠ [] ∨
          target ≤ (((y.take le).length : ℚ) / (sr : ℚ))) →
        ∃ fuel out, extendTrack y sr ls le target fuel = some out) ∧
    (∀ fuel, extendTrack [0] 1 1 1 2 fuel = none) := by
  constructor
  · intro y sr ls le target hsr hcase
    rcases hcase with hne | ht
    · set seg := loopSegment y ls le with hsegdef
      have hlen : 0 < seg.length := List.length_pos.mpr hne
      set fuel := (⌈target * (sr : ℚ)⌉).toNat with hfueldef
      have h1 : target * (sr : ℚ) ≤ ((fuel : ℕ) : ℚ) := by
        have ha : target * (sr : ℚ) ≤ ((⌈target * (sr : ℚ)⌉ : ℤ) : ℚ) :=
          Int.le_ceil _
        have hb : ((⌈target * (sr : ℚ)⌉ : ℤ) : ℚ) ≤ ((fuel : ℕ) : ℚ) := by
          rw [hfueldef]
          exact_mod_cast Int.self_le_toNat _
        exact le_trans ha hb
      have h2 : ((fuel : ℕ) : ℚ) ≤ (fuel : ℚ) * (seg.length : ℚ) := by
        have hone : (1 : ℚ) ≤ (seg.length : ℚ) := by exact_mod_cast hlen
        have hnn : (0 : ℚ) ≤ (fuel : ℚ) := by positivity
        nlinarith
      have h3 : target * (sr : ℚ) ≤
          (((y.take le).length : ℚ)) + (fuel : ℚ) * (seg.length : ℚ) := by
        have hnn : (0 : ℚ) ≤ (((y.take le).length : ℕ) : ℚ) := by positivity
        linarith
      rcases extendLoop_total seg sr target hsr fuel (y.take le) h3 with ⟨out, hout⟩
      exact ⟨fuel, out, hout⟩
    · refine ⟨0, y.take le, ?_⟩
      unfold extendTrack
      exact extendLoop_of_done _ _ _ _ (not_lt.mpr ht) 0
  · intro fuel
    have hseg : loopSegment [0] 1 1 = ([] : List ℚ) := by decide
    have htake : ([0] : List ℚ).take 1 = [0] := by decide
    unfold extendTrack
    rw [hseg, htake]
    refine extendLoop_empty_diverges 1 2 [0] ?_ fuel
    norm_num

/-- C9 witness: the termination half applied to the concrete input
`y = [1]`, sr 1, loop `[0, 1)`, target 3 s. -/
theorem C9_witness :
    ∃ fuel out, extendTrack [1] 1 0 1 3 fuel = some out :=
  C9_termination.1 [1] 1 0 1 3 (by decide) (Or.inl (by decide))

/-- C10: over every strictly increasing beat grid `b :: rest`,
nearest-beat snapping with first-occurrence tie-breaking is monotone, so a
candidate with `start_frame ≤ end_frame` can never have its order inverted
by beat synchronization; the second conjunct shows the pair can collapse to
equality (frames 0 and 1 both snap to beat 0 of the grid `[0, 2]`). -/
theorem C10_beat_sync_monotone :
    (∀ (b : ℤ) (rest : List ℤ) (a c : ℤ),
        (b :: rest).Pairwise (· < ·) → a ≤ c →
        nearestBeat a b rest ≤ nearestBeat c b rest) ∧
    nearestBeat 0 0 [2] = nearestBeat 1 0 [2] := by
  constructor
  · intro b rest a c hs hac
    exact nearestBeat_mono b rest a c hs hac
  · decide

/-- C10 witness: the grid `[0, 2]` with candidate frames 0 ≤ 1. -/
theorem C10_witness : nearestBeat 0 0 [2] ≤ nearestBeat 1 0 [2] :=
  C10_beat_sync_monotone.1 0 [2] 0 1 (by decide) (by decide)

end OstExtender
